import Mathlib

/-!
Verification of the go-besu private-transaction library: a shallow embedding of
the transaction signing path (`types` package), the privacy-group resolver
(`privacy` package) and the receipt mapper, with theorems settling the spec's
claims about them.

Machine integers are modelled as `Nat`/`Int` with explicit reductions
(`% 2^64` for Go `uint64` wrap-around, `% 256` for `byte` arithmetic,
an explicit sign-extension for the Java-style `int32` folding hash).
Byte strings are `List Nat` whose elements are below 256.
-/

namespace Besu

/-- Go `uint64` wrap-around. -/
def u64 (n : Nat) : Nat := n % 2 ^ 64

/-- Big-endian interpretation of a byte string, as `big.Int.SetBytes` does. -/
def bytesToNat (bs : List Nat) : Nat :=
  bs.foldl (fun acc b => acc * 256 + b % 256) 0

/-- Big-endian digit worker; the fuel (first argument) bounds the number of
digits, and the value itself is always a sufficient bound. -/
def natToBEBytesAux : Nat → Nat → List Nat
  | _, 0 => []
  | 0, _ + 1 => []
  | fuel + 1, n + 1 => natToBEBytesAux fuel ((n + 1) / 256) ++ [(n + 1) % 256]

/-- Minimal big-endian byte representation of a natural number (the canonical
RLP integer byte string; `0` is the empty string). -/
def natToBEBytes (n : Nat) : List Nat := natToBEBytesAux n n

/-- Byte sequence of an ASCII string (all strings in this code are ASCII,
where UTF-8 bytes coincide with code points). -/
def strBytes (s : String) : List Nat := s.toList.map Char.toNat

/-! ## Keccak-256 (legacy Keccak, 0x01 domain padding), as used by
`golang.org/x/crypto/sha3.NewLegacyKeccak256`. Lanes are 64-bit values
kept below `2^64` as `Nat`. -/

/-- Left-rotation of a 64-bit lane. -/
def rotl64 (n k : Nat) : Nat :=
  (((n <<< k) ||| (n >>> (64 - k)))) % 2 ^ 64

/-- The rho-offset walk of the Keccak reference: starting from lane (1,0),
step `t` assigns rotation `(t+1)(t+2)/2 mod 64` to the current lane and
moves to `(y, 2x+3y mod 5)`. Returns the position after `t` steps and the
accumulated (flat index, offset) assignments. -/
def rhoPairs : Nat → Nat × Nat × List (Nat × Nat)
  | 0 => (1, 0, [])
  | t + 1 =>
    let (x, y, acc) := rhoPairs t
    (y, (2 * x + 3 * y) % 5,
      (x + 5 * y, (t + 1) * (t + 2) / 2 % 64) :: acc)

/-- Keccak rho-step rotation offsets, indexed by `x + 5*y` (lane (0,0) keeps
offset 0). -/
def rhoOffsets : List Nat :=
  (List.range 25).map (fun i =>
    (((rhoPairs 24).2.2.find? (fun p => p.1 = i)).map Prod.snd).getD 0)

/-- One step of the degree-8 LFSR (taps of x^8 + x^6 + x^5 + x^4 + 1) that
generates the Keccak round-constant bits. -/
def lfsrStep (R : Nat) : Nat :=
  let R2 := R <<< 1
  if R2 &&& 0x100 ≠ 0 then (R2 ^^^ 0x171) &&& 0xFF else R2 &&& 0xFF

/-- The LFSR state after `t` steps from the initial state 1. -/
def lfsrIter : Nat → Nat
  | 0 => 1
  | t + 1 => lfsrStep (lfsrIter t)

/-- Bit `t` of the Keccak round-constant sequence. -/
def rcBit (t : Nat) : Nat := lfsrIter (t % 255) &&& 1

/-- Round constant of round `i`: bit `7i + j` of the sequence lands at bit
position `2^j - 1` of the lane. -/
def keccakRCAt (i : Nat) : Nat :=
  (List.range 7).foldl (fun acc j => acc + rcBit (j + 7 * i) * 2 ^ (2 ^ j - 1)) 0

/-- Keccak iota-step round constants. -/
def keccakRC : List Nat := (List.range 24).map keccakRCAt

/-- Keccak theta step on a 25-lane state. -/
def theta (A : List Nat) : List Nat :=
  let C := (List.range 5).map (fun x =>
    (A.getD x 0) ^^^ (A.getD (x + 5) 0) ^^^ (A.getD (x + 10) 0) ^^^
      (A.getD (x + 15) 0) ^^^ (A.getD (x + 20) 0))
  let D := (List.range 5).map (fun x =>
    (C.getD ((x + 4) % 5) 0) ^^^ rotl64 (C.getD ((x + 1) % 5) 0) 1)
  (List.range 25).map (fun i => (A.getD i 0) ^^^ (D.getD (i % 5) 0))

/-- Keccak rho and pi steps: lane `(x', y')` of the output is lane
`(x' + 3 y' mod 5, x')` of the input, rotated by its rho offset. -/
def rhoPi (A : List Nat) : List Nat :=
  (List.range 25).map (fun j =>
    let x := (j % 5 + 3 * (j / 5)) % 5
    let y := j % 5
    rotl64 (A.getD (x + 5 * y) 0) (rhoOffsets.getD (x + 5 * y) 0))

/-- Keccak chi step. -/
def chi (B : List Nat) : List Nat :=
  (List.range 25).map (fun i =>
    let x := i % 5
    let y := i / 5
    let b1 := B.getD ((x + 1) % 5 + 5 * y) 0
    let b2 := B.getD ((x + 2) % 5 + 5 * y) 0
    (B.getD i 0) ^^^ ((b1 ^^^ (2 ^ 64 - 1)) &&& b2))

/-- One Keccak-f[1600] round. -/
def keccakRound (A : List Nat) (rc : Nat) : List Nat :=
  let B := chi (rhoPi (theta A))
  B.set 0 ((B.getD 0 0) ^^^ rc)

/-- The full 24-round Keccak-f[1600] permutation. -/
def keccakF (A : List Nat) : List Nat :=
  keccakRC.foldl keccakRound A

/-- Multi-rate padding with the legacy Keccak domain byte `0x01`
(rate 136 bytes for Keccak-256). -/
def keccakPad (msg : List Nat) : List Nat :=
  let padLen := 136 - msg.length % 136
  if padLen = 1 then msg ++ [0x81]
  else msg ++ [0x01] ++ List.replicate (padLen - 2) 0 ++ [0x80]

/-- Block-splitting worker; the fuel (first argument) bounds the number of
blocks, and the byte count is always a sufficient bound. -/
def chunksAux : Nat → List Nat → List (List Nat)
  | _, [] => []
  | 0, _ :: _ => []
  | fuel + 1, b :: l2 =>
    (b :: l2).take 136 :: chunksAux fuel ((b :: l2).drop 136)

/-- Split a byte string into blocks of 136 bytes. -/
def chunks136 (l : List Nat) : List (List Nat) := chunksAux l.length l

/-- Little-endian interpretation of (up to) 8 bytes as one 64-bit lane. -/
def bytesToLane (bs : List Nat) : Nat :=
  bs.foldr (fun b acc => b % 256 + 256 * acc) 0

/-- Little-endian bytes of a 64-bit lane. -/
def laneToBytes (n : Nat) : List Nat :=
  (List.range 8).map (fun k => (n >>> (8 * k)) % 256)

/-- Absorb one 136-byte block into the sponge state. -/
def absorbBlock (A : List Nat) (block : List Nat) : List Nat :=
  keccakF ((List.range 25).map (fun i =>
    (A.getD i 0) ^^^ (if i < 17 then bytesToLane ((block.drop (8 * i)).take 8) else 0)))

/-- Keccak-256 digest (32 bytes) of a byte string. -/
def keccak256 (msg : List Nat) : List Nat :=
  let A := (chunks136 (keccakPad msg)).foldl absorbBlock (List.replicate 25 0)
  ((List.range 4).map (fun i => laneToBytes (A.getD i 0))).flatten

/-! ## RLP (recursive length prefix) encoding, the fragment of
`github.com/ethereum/go-ethereum/rlp` exercised by this repository:
byte strings and (nested) lists of items. -/

/-- An RLP value: a byte string or a list of RLP values. -/
inductive RLPItem where
  | str (bs : List Nat)
  | list (items : List RLPItem)

/-- Length-prefix for an RLP payload: `base + length` for short payloads,
`base + 55 + byteLength(length)` followed by the big-endian length otherwise. -/
def rlpLenPrefix (base : Nat) (len : Nat) : List Nat :=
  if len ≤ 55 then [base + len]
  else (base + 55 + (natToBEBytes len).length) :: natToBEBytes len

/-- RLP encoding of a byte string. -/
def rlpEncStr (bs : List Nat) : List Nat :=
  match bs with
  | [b] => if b % 256 < 0x80 then [b % 256] else 0x81 :: [b % 256]
  | _ => rlpLenPrefix 0x80 bs.length ++ bs.map (· % 256)

mutual

/-- RLP encoding of an item. -/
def rlpEncode : RLPItem → List Nat
  | .str bs => rlpEncStr bs
  | .list items =>
    let payload := rlpEncodeItems items
    rlpLenPrefix 0xc0 payload.length ++ payload

/-- Concatenated RLP encodings of a list of items. -/
def rlpEncodeItems : List RLPItem → List Nat
  | [] => []
  | i :: rest => rlpEncode i ++ rlpEncodeItems rest

end

/-- Keccak-256 digest of the RLP encoding of a value, as `rlpHash` in both
`types` and `privacy` packages. -/
def rlpHash (x : RLPItem) : List Nat := keccak256 (rlpEncode x)

/-! ## Base64 (standard alphabet with padding), the fragment of
`encoding/base64` used: `StdEncoding.EncodeToString` / `DecodeString`. -/

/-- The standard base64 alphabet. -/
def b64Alphabet : List Char :=
  "ABCDEFGHIJKLMNOPQRSTUVWXYZabcdefghijklmnopqrstuvwxyz0123456789+/".toList

/-- Character for a 6-bit group. -/
def b64Char (n : Nat) : Char := b64Alphabet.getD n 'A'

/-- Character list of the base64 encoding of a byte string. -/
def base64Chars : List Nat → List Char
  | [] => []
  | [a] =>
    let a := a % 256
    [b64Char (a >>> 2), b64Char ((a &&& 3) <<< 4), '=', '=']
  | [a, b] =>
    let a := a % 256
    let b := b % 256
    [b64Char (a >>> 2), b64Char (((a &&& 3) <<< 4) ||| (b >>> 4)),
     b64Char ((b &&& 15) <<< 2), '=']
  | a :: b :: c :: rest =>
    let a := a % 256
    let b := b % 256
    let c := c % 256
    b64Char (a >>> 2) :: b64Char (((a &&& 3) <<< 4) ||| (b >>> 4)) ::
      b64Char (((b &&& 15) <<< 2) ||| (c >>> 6)) :: b64Char (c &&& 63) ::
        base64Chars rest

/-- `base64.StdEncoding.EncodeToString`. -/
def base64Encode (bs : List Nat) : String := String.mk (base64Chars bs)

/-- Value of one base64 alphabet character. -/
def b64Val (c : Char) : Option Nat :=
  let n := c.toNat
  if 65 ≤ n ∧ n ≤ 90 then some (n - 65)
  else if 97 ≤ n ∧ n ≤ 122 then some (n - 97 + 26)
  else if 48 ≤ n ∧ n ≤ 57 then some (n - 48 + 52)
  else if c = '+' then some 62
  else if c = '/' then some 63
  else none

/-- Decode base64 character groups of four (padding only in the final group). -/
def base64DecodeGroups : List Char → Except String (List Nat)
  | [] => .ok []
  | c1 :: c2 :: c3 :: c4 :: rest =>
    match b64Val c1, b64Val c2 with
    | some v1, some v2 =>
      if c3 = '=' then
        if c4 = '=' ∧ rest = [] then .ok [(v1 <<< 2) ||| (v2 >>> 4)]
        else .error ("illegal base64 data")
      else
        match b64Val c3 with
        | some v3 =>
          if c4 = '=' then
            if rest = [] then
              .ok [(v1 <<< 2) ||| (v2 >>> 4), ((v2 &&& 15) <<< 4) ||| (v3 >>> 2)]
            else .error ("illegal base64 data")
          else
            match b64Val c4 with
            | some v4 =>
              match base64DecodeGroups rest with
              | .ok bs =>
                .ok ([(v1 <<< 2) ||| (v2 >>> 4), ((v2 &&& 15) <<< 4) ||| (v3 >>> 2),
                  ((v3 &&& 3) <<< 6) ||| v4] ++ bs)
              | .error e => .error e
            | none => .error ("illegal base64 data")
        | none => .error ("illegal base64 data")
    | _, _ => .error ("illegal base64 data")
  | _ => .error ("illegal base64 data")

/-- `base64.StdEncoding.DecodeString`. -/
def base64Decode (s : String) : Except String (List Nat) :=
  base64DecodeGroups s.toList

/-! ## Privacy group resolver (`privacy/privacy.go`). -/

/-- A participant public key: raw bytes (`type PublicKey []byte`). -/
abbrev PublicKey := List Nat

/-- A privacy group (`type Group struct`); `FindRootPrivacyGroup` fills only
the `ID` field, leaving the Go zero values elsewhere. -/
structure Group where
  ID : String
  Name : String
  Description : String
  Type' : String
  Members : List PublicKey
deriving DecidableEq

/-- Sign extension of one byte to a signed 32-bit value,
Go `int((int32(v) << 24) >> 24)`. -/
def sext8 (b : Nat) : Int :=
  if b % 256 < 128 then (b % 256 : Int) else (b % 256 : Int) - 256

/-- Reinterpretation of a value mod `2^32` as a signed 32-bit integer,
Go `int(int32(n & 0xffffffff))`. -/
def toSigned32 (n : Int) : Int :=
  let m := n % (2 ^ 32)
  if m < 2 ^ 31 then m else m - 2 ^ 32

/-- The Java-style folding hash over key bytes
(`func (pub PublicKey) Hash() int`): starting from 1, each byte is
sign-extended and folded by `result = int32(31*result + sext(b))`. -/
def PublicKey.Hash (pub : PublicKey) : Int :=
  pub.foldl (fun result v => toSigned32 (31 * result + sext8 v)) 1

/-- Insertion into the `map[int]*PublicKey`: an existing binding for the same
hash is overwritten. -/
def insertHM (m : List (Int × PublicKey)) (k : Int) (v : PublicKey) :
    List (Int × PublicKey) :=
  match m with
  | [] => [(k, v)]
  | (k0, v0) :: rest =>
    if k0 = k then (k0, v) :: rest else (k0, v0) :: insertHM rest k v

/-- The `hashMap` built by `sort`: each participant is inserted under its
folding hash, later participants overwriting earlier colliding ones. -/
def buildHM (ps : List PublicKey) : List (Int × PublicKey) :=
  ps.foldl (fun m p => insertHM m (PublicKey.Hash p) p) []

/-- Lookup in the hash map. -/
def lookupHM (m : List (Int × PublicKey)) (k : Int) : Option PublicKey :=
  match m with
  | [] => none
  | (k0, v0) :: rest => if k0 = k then some v0 else lookupHM rest k

/-- Ascending sort of the map keys, modelling `sort.Ints` by its contract
(the unique ascending ordering of the key list). -/
def sortInts (l : List Int) : List Int :=
  List.insertionSort (fun a b => a ≤ b) l

/-- The deterministic participant ordering (`func (p *Privacy) sort`): build
the hash map (collisions overwrite), sort its keys ascending, and read the
surviving participants back in that key order. -/
def sort (participants : List PublicKey) : List PublicKey :=
  let hashMap := buildHM participants
  let keys := hashMap.map Prod.fst
  (sortInts keys).filterMap (lookupHM hashMap)

/-- `FindRootPrivacyGroup`: RLP-hash the deterministically ordered
participant keys and base64-encode the digest as the group id. -/
def FindRootPrivacyGroup (participants : List PublicKey) : Group :=
  let sortParticipants := sort participants
  let hash := rlpHash (.list (sortParticipants.map .str))
  { ID := base64Encode hash, Name := "", Description := "", Type' := "",
    Members := [] }

/-- `func (pub PublicKey) ToString() string`: base64 of the raw key bytes. -/
def PublicKey.ToString (pub : PublicKey) : String := base64Encode pub

/-- `ToPublicKey`: base64 decoding of a key string. -/
def ToPublicKey (key : String) : Except String PublicKey := base64Decode key

/-- The parameter value handed to the RPC transport: either a list of raw
participant keys or a list of (base64) strings. -/
inductive RpcParam where
  | rawKeys (ks : List PublicKey)
  | strList (ss : List String)
deriving DecidableEq

/-- The request issued by `FindPrivacyGroup`: the method name and the
parameter passed to `client.CallContext`. The base64 string list
`publicKeysString` is computed exactly as in the source, where it is then
left unused: the raw `participants` value is what is passed on. -/
def findPrivacyGroupRequest (participants : List PublicKey) :
    String × RpcParam :=
  let publicKeysString := participants.map PublicKey.ToString
  ("priv_findPrivacyGroup", RpcParam.rawKeys participants)

/-! ## Private transaction engine (`types` package, transaction file).
`big.Int` fields hold non-negative values on every code path here and are
modelled as `Nat`; `chainID` likewise. -/

/-- The transaction payload (`type txdata struct`). -/
structure Txdata where
  AccountNonce : Nat
  Price : Nat
  GasLimit : Nat
  Recipient : Option (List Nat)
  Amount : Nat
  Payload : List Nat
  V : Nat
  R : Nat
  S : Nat
  PrivateFrom : List Nat
  PrivateFor : List (List Nat)
  Restriction : String
deriving DecidableEq

/-- The signing digest (`func hash`): Keccak-256 of the RLP encoding of the
twelve-element sequence built from the transaction and the chain id. A `nil`
recipient encodes as the empty byte string; the two `uint(0)` literals encode
as empty byte strings as well. -/
def hash (tx : Txdata) (chainID : Nat) : List Nat :=
  rlpHash (.list
    [.str (natToBEBytes tx.AccountNonce),
     .str (natToBEBytes tx.Price),
     .str (natToBEBytes tx.GasLimit),
     .str (match tx.Recipient with | none => [] | some a => a),
     .str (natToBEBytes tx.Amount),
     .str tx.Payload,
     .str (natToBEBytes chainID),
     .str (natToBEBytes 0),
     .str (natToBEBytes 0),
     .str tx.PrivateFrom,
     .list (tx.PrivateFor.map .str),
     .str (strBytes tx.Restriction)])

/-- The signing digest as the spec words it: the canonical (RLP) encoding of
the fixed field sequence nonce, gasPrice, gasLimit, recipient (or empty
marker), value, payload, chainId, the literal 0, the literal 0, privateFrom,
privateFor as a nested list of byte strings, restriction — then the
Canonical Encoder digest (Keccak-256). -/
def signingDigestSpec (tx : Txdata) (chainID : Nat) : List Nat :=
  let fields : List RLPItem :=
    [.str (natToBEBytes tx.AccountNonce),
     .str (natToBEBytes tx.Price),
     .str (natToBEBytes tx.GasLimit),
     .str (match tx.Recipient with | none => [] | some a => a),
     .str (natToBEBytes tx.Amount),
     .str tx.Payload,
     .str (natToBEBytes chainID),
     .str (natToBEBytes 0),
     .str (natToBEBytes 0),
     .str tx.PrivateFrom,
     .list (tx.PrivateFor.map .str),
     .str (strBytes tx.Restriction)]
  keccak256 (rlpEncode (.list fields))

/-- Outcome of `signatureValues`: either the `(r, s, v)` components or a Go
`panic` (the function aborts instead of reporting through its error result,
which is always `nil`). -/
inductive SigVals where
  | ok (r s v : Nat)
  | panicked (msg : String)
deriving DecidableEq

/-- `func signatureValues`: panics unless the raw signature has exactly 65
bytes (`crypto.SignatureLength`); otherwise `r` and `s` are the big-endian
values of the two 32-byte halves and `v` is the single byte `sig[64] + 27`
(byte arithmetic, wrapping mod 256). -/
def signatureValues (tx : Txdata) (sig : List Nat) : SigVals :=
  if sig.length ≠ 65 then
    .panicked ("wrong size for signature: got " ++ toString sig.length ++ ", want 65")
  else
    .ok (bytesToNat (sig.take 32)) (bytesToNat ((sig.drop 32).take 32))
      ((sig.getD 64 0 % 256 + 27) % 256)

/-- Outcome of a signing step: a transaction, an error returned to the
caller, or a Go `panic`. -/
inductive TxResult where
  | ok (tx : Txdata)
  | errored (msg : String)
  | panicked (msg : String)
deriving DecidableEq

/-- `func withSignature`: extract `(r, s, v)`, fold the chain id into the
stored `v` with `uint64` arithmetic (`v.Uint64() + chainID.Uint64()*2 + 8`,
each operation wrapping mod `2^64`), and return a copy of the transaction
carrying the new `R`, `S`, `V`. -/
def withSignature (tx : Txdata) (sig : List Nat) (chainID : Nat) : TxResult :=
  match signatureValues tx sig with
  | .panicked e => .panicked e
  | .ok r s v =>
    let newV := u64 (u64 (u64 v + u64 (u64 chainID * 2)) + 8)
    .ok { tx with R := r, S := s, V := newV }

/-- `func (tx *PrivateTransaction) SignTx`: the external
`crypto.Sign(h, prv)` call is modelled by its outcome `sig`, either an error
(propagated unchanged) or the raw signature bytes handed to
`withSignature`. -/
def SignTx (tx : Txdata) (chainID : Nat) (sig : Except String (List Nat)) :
    TxResult :=
  match sig with
  | .error e => .errored e
  | .ok bytes => withSignature tx bytes chainID

/-! ### Construction (`func newTransaction`), with a small store model for
byte slices so that the defensive payload copy (`common.CopyBytes`) and
later in-place mutation of the caller's slice are expressible. -/

/-- A store of byte buffers; a slice is an index into it. -/
abbrev Mem := List (List Nat)

/-- Read a buffer (a dangling reference reads as the empty slice). -/
def readBuf (mem : Mem) (ref : Nat) : List Nat := mem.getD ref []

/-- In-place write of one byte of a buffer; out-of-range positions and
dangling references leave the store unchanged (no reallocation ever
happens through this operation). -/
def writeBuf (mem : Mem) (ref pos val : Nat) : Mem :=
  mem.set ref ((readBuf mem ref).set pos (val % 256))

/-- A constructed transaction whose payload is a reference into the store;
all other fields are plain values. -/
structure TxdataRef where
  AccountNonce : Nat
  Price : Nat
  GasLimit : Nat
  Recipient : Option (List Nat)
  Amount : Nat
  PayloadRef : Nat
  V : Nat
  R : Nat
  S : Nat
  PrivateFrom : List Nat
  PrivateFor : List (List Nat)
  Restriction : String

/-- `func newTransaction`: a non-empty payload slice is defensively copied
into a fresh buffer (`common.CopyBytes`); `nil` amount and gas price (the
`Option` arguments) default to zero; the restriction is the literal
`"restricted"`; the signature fields start at zero. -/
def newTransaction (mem : Mem) (nonce : Nat) (toAddr : Option (List Nat))
    (amount : Option Nat) (gasLimit : Nat) (gasPrice : Option Nat)
    (dataRef : Nat) (privateFrom : List Nat) (privateFor : List (List Nat)) :
    Mem × TxdataRef :=
  let data := readBuf mem dataRef
  let (mem1, dref) :=
    if 0 < data.length then (mem ++ [data], mem.length) else (mem, dataRef)
  (mem1,
   { AccountNonce := nonce, Recipient := toAddr, PayloadRef := dref,
     Amount := amount.getD 0, GasLimit := gasLimit,
     Price := gasPrice.getD 0, PrivateFrom := privateFrom,
     PrivateFor := privateFor, Restriction := "restricted",
     V := 0, R := 0, S := 0 })

/-! ## Receipt mapping (`MarshalPrivateReceipt`).
The input is the decoded JSON-RPC response, a `map[string]interface{}`
modelled as an association list of dynamic values. Go type assertions
without the comma-ok form panic on a value of the wrong dynamic type, so
every step is a value, a returned error, or a panic. -/

/-- A dynamic (`interface{}`) value as it occurs in the response map. -/
inductive JVal where
  | str (s : String)
  | arr (vs : List JVal)
  | bytes (bs : List Nat)
  | other

/-- The response map. -/
abbrev RMap := List (String × JVal)

/-- Map lookup (first binding wins). -/
def lookupR (m : RMap) (k : String) : Option JVal :=
  match m with
  | [] => none
  | (k0, v0) :: rest => if k0 = k then some v0 else lookupR rest k

/-- Outcome of a mapping step: a value, an error returned to the caller, or
a Go panic. -/
inductive Got (α : Type) where
  | ok (a : α)
  | errored (msg : String)
  | panicked (msg : String)
deriving DecidableEq

/-- Sequencing of mapping steps. -/
def Got.andThen {α β : Type} (x : Got α) (f : α → Got β) : Got β :=
  match x with
  | .ok a => f a
  | .errored e => .errored e
  | .panicked e => .panicked e

/-- Hex digit value. -/
def hexDigit (c : Char) : Option Nat :=
  let n := c.toNat
  if 48 ≤ n ∧ n ≤ 57 then some (n - 48)
  else if 97 ≤ n ∧ n ≤ 102 then some (n - 97 + 10)
  else if 65 ≤ n ∧ n ≤ 70 then some (n - 65 + 10)
  else none

/-- Lenient pairwise hex decoding (`hex.DecodeString` with the error
discarded, as in `common.Hex2Bytes`): decoding stops at the first bad
pair. -/
def hexPairsLoose : List Char → List Nat
  | c1 :: c2 :: rest =>
    match hexDigit c1, hexDigit c2 with
    | some h, some l => (16 * h + l) :: hexPairsLoose rest
    | _, _ => []
  | _ => []

/-- `common.FromHex`: strip an optional `0x` prefix, left-pad odd-length
input with one `0`, decode leniently. -/
def fromHex (s : String) : List Nat :=
  let cs := s.toList
  let cs1 := if cs.take 2 = ['0', 'x'] ∨ cs.take 2 = ['0', 'X'] then cs.drop 2 else cs
  let cs2 := if cs1.length % 2 = 1 then '0' :: cs1 else cs1
  hexPairsLoose cs2

/-- `SetBytes` semantics of the fixed-size hash and address types: keep the
last `n` bytes, left-padding with zeros. -/
def setBytesN (n : Nat) (bs : List Nat) : List Nat :=
  if n ≤ bs.length then bs.drop (bs.length - n)
  else List.replicate (n - bs.length) 0 ++ bs

/-- `common.HexToHash`. -/
def hexToHash (s : String) : List Nat := setBytesN 32 (fromHex s)

/-- `common.HexToAddress`. -/
def hexToAddress (s : String) : List Nat := setBytesN 20 (fromHex s)

/-- Strict pairwise hex decoding for `hexutil.Decode`. -/
def hexPairsStrict : List Char → Except String (List Nat)
  | [] => .ok []
  | c1 :: c2 :: rest =>
    match hexDigit c1, hexDigit c2 with
    | some h, some l =>
      match hexPairsStrict rest with
      | .ok bs => .ok ((16 * h + l) :: bs)
      | .error e => .error e
    | _, _ => .error ("invalid hex string")
  | _ => .error ("odd length hex string")

/-- `hexutil.Decode`: requires a `0x` prefix and an even number of valid hex
digits. -/
def hexutilDecode (s : String) : Except String (List Nat) :=
  let cs := s.toList
  if cs = [] then .error ("empty hex string")
  else if cs.take 2 ≠ ['0', 'x'] ∧ cs.take 2 ≠ ['0', 'X'] then
    .error ("hex string without 0x prefix")
  else hexPairsStrict (cs.drop 2)

/-- Greedy hex-prefix value, a best-effort model of `big.Int.SetString`
with base 16 (the parsed value is irrelevant to every claim; on malformed
input the Go receiver retains a partial value). -/
def hexNat16 : List Char → Nat → Nat
  | [], acc => acc
  | c :: rest, acc =>
    match hexDigit c with
    | some d => hexNat16 rest (acc * 16 + d)
    | none => acc

/-- Signed wrapper around `hexNat16`. -/
def parseHex16 (s : String) : Int :=
  match s.toList with
  | '-' :: rest => -(hexNat16 rest 0 : Int)
  | '+' :: rest => (hexNat16 rest 0 : Int)
  | cs => (hexNat16 cs 0 : Int)

/-- `types.BytesToBloom`: panics when handed more than 256 bytes, otherwise
left-pads to 256 bytes. -/
def bytesToBloom (bs : List Nat) : Got (List Nat) :=
  if 256 < bs.length then
    .panicked ("bloom bytes too big 256 " ++ toString bs.length)
  else .ok (List.replicate (256 - bs.length) 0 ++ bs.map (· % 256))

/-- The mapped receipt (`type PrivateReceipt struct`); logs are kept as the
raw bytes a successful decode would have consumed (no decode ever
succeeds). -/
structure PrivateReceipt where
  PostState : List Nat
  Status : Nat
  Bloom : List Nat
  Logs : List (List Nat)
  TxHash : List Nat
  ContractAddress : List Nat
  BlockHash : List Nat
  BlockNumber : Option Int
  TransactionIndex : Nat
  PrivateFrom : PublicKey
  PrivateFor : List PublicKey
  Restriction : String
  CommitmentHash : List Nat
  Output : List Nat
deriving DecidableEq

/-- An optional field read with a `v.(string)` assertion: absent is fine, a
present non-string value panics. -/
def getOptString (m : RMap) (k : String) : Got (Option String) :=
  match lookupR m k with
  | none => .ok none
  | some (.str s) => .ok (some s)
  | some _ => .panicked ("interface conversion")

/-- A required field: absence is the error `"<key> not found"`. -/
def getRequired (m : RMap) (k : String) : Got JVal :=
  match lookupR m k with
  | none => .errored (k ++ " not found")
  | some v => .ok v

/-- The `v.(string)` assertion. -/
def asString : JVal → Got String
  | .str s => .ok s
  | _ => .panicked ("interface conversion")

/-- The `v.([]interface{})` assertion. -/
def asArr : JVal → Got (List JVal)
  | .arr vs => .ok vs
  | _ => .panicked ("interface conversion")

/-- The `privateFor` entry loop: each entry is asserted to be a string and
base64-decoded; entries that fail to decode are skipped (`continue`). -/
def decodePrivateFor : List JVal → Got (List PublicKey)
  | [] => .ok []
  | v :: rest =>
    (asString v).andThen fun s =>
      match ToPublicKey s with
      | .error _ => decodePrivateFor rest
      | .ok k => (decodePrivateFor rest).andThen fun ks => .ok (k :: ks)

/-! ### The log-entry decoder.
The loop in `MarshalPrivateReceipt` declares `var log *types.Log` and calls
`log.UnmarshalJSON(v.([]byte))`. go-ethereum's gencodec-generated
`(*types.Log).UnmarshalJSON` first runs `json.Unmarshal` into a local
struct and returns an error on input that does not decode (invalid JSON, a
known field of the wrong shape, trailing data), then returns an error when
the required `address` field is absent, and only then writes through its
receiver — which for the loop's nil pointer is a nil dereference panic. So
a malformed entry is skipped by the `continue` branch, while an entry that
decodes successfully panics. The JSON recognizer below models
`json.Unmarshal` for the Log schema; number internals, string escape
sequences and non-ASCII string content are validated only loosely (none of
them can turn an otherwise-rejected entry into an accepted one at the
inputs the claims exercise). -/

/-- A decoded JSON value; numeric payloads are irrelevant to the Log schema
(every numeric Log field is a hex string, and a plain JSON number in a
known field is a decode error). -/
inductive Json where
  | obj (fields : List (String × Json))
  | arr (elems : List Json)
  | str (s : String)
  | num
  | bool (b : Bool)
  | null

/-- Skip JSON whitespace (space, tab, LF, CR). -/
def jsonSkipWs : List Nat → List Nat
  | c :: rest =>
    if c = 32 ∨ c = 9 ∨ c = 10 ∨ c = 13 then jsonSkipWs rest else c :: rest
  | [] => []

/-- Consume the characters of a JSON number (loosely). -/
def skipNumChars : List Nat → List Nat
  | c :: rest =>
    if (48 ≤ c ∧ c ≤ 57) ∨ c = 45 ∨ c = 43 ∨ c = 46 ∨ c = 101 ∨ c = 69 then
      skipNumChars rest
    else c :: rest
  | [] => []

/-- String characters after the opening quote; a backslash keeps the escaped
character. -/
def parseStrChars : Nat → List Nat → Option (List Char × List Nat)
  | 0, _ => none
  | fuel + 1, input =>
    match input with
    | 34 :: r2 => some ([], r2)
    | 92 :: e :: r2 =>
      match parseStrChars fuel r2 with
      | some (cs, r3) => some (Char.ofNat e :: cs, r3)
      | none => none
    | c :: r2 =>
      match parseStrChars fuel r2 with
      | some (cs, r3) => some (Char.ofNat c :: cs, r3)
      | none => none
    | [] => none

mutual

/-- One JSON value, after optional whitespace. The fuel bounds the
recursion; the caller supplies ample fuel. -/
def parseVal : Nat → List Nat → Option (Json × List Nat)
  | 0, _ => none
  | fuel + 1, input =>
    match jsonSkipWs input with
    | [] => none
    | c :: rest =>
      if c = 123 then parseObjBody fuel rest
      else if c = 91 then parseArrBody fuel rest
      else if c = 34 then
        match parseStrChars fuel rest with
        | some (cs, r2) => some (.str (String.mk cs), r2)
        | none => none
      else if c = 116 then
        match rest with
        | 114 :: 117 :: 101 :: r2 => some (.bool true, r2)
        | _ => none
      else if c = 102 then
        match rest with
        | 97 :: 108 :: 115 :: 101 :: r2 => some (.bool false, r2)
        | _ => none
      else if c = 110 then
        match rest with
        | 117 :: 108 :: 108 :: r2 => some (.null, r2)
        | _ => none
      else if c = 45 ∨ (48 ≤ c ∧ c ≤ 57) then some (.num, skipNumChars rest)
      else none

/-- Object body after the opening brace. -/
def parseObjBody : Nat → List Nat → Option (Json × List Nat)
  | 0, _ => none
  | fuel + 1, input =>
    match jsonSkipWs input with
    | 125 :: r2 => some (.obj [], r2)
    | other => parseMembers fuel other []

/-- Comma-separated `"key": value` members, ending at the closing brace. -/
def parseMembers : Nat → List Nat → List (String × Json) →
    Option (Json × List Nat)
  | 0, _, _ => none
  | fuel + 1, input, acc =>
    match jsonSkipWs input with
    | 34 :: r1 =>
      match parseStrChars fuel r1 with
      | some (kcs, r2) =>
        match jsonSkipWs r2 with
        | 58 :: r3 =>
          match parseVal fuel r3 with
          | some (v, r4) =>
            match jsonSkipWs r4 with
            | 44 :: r5 => parseMembers fuel r5 (acc ++ [(String.mk kcs, v)])
            | 125 :: r5 => some (.obj (acc ++ [(String.mk kcs, v)]), r5)
            | _ => none
          | none => none
        | _ => none
      | none => none
    | _ => none

/-- Array body after the opening bracket. -/
def parseArrBody : Nat → List Nat → Option (Json × List Nat)
  | 0, _ => none
  | fuel + 1, input =>
    match jsonSkipWs input with
    | 93 :: r2 => some (.arr [], r2)
    | other => parseElems fuel other []

/-- Comma-separated array elements, ending at the closing bracket. -/
def parseElems : Nat → List Nat → List Json → Option (Json × List Nat)
  | 0, _, _ => none
  | fuel + 1, input, acc =>
    match parseVal fuel input with
    | some (v, r1) =>
      match jsonSkipWs r1 with
      | 44 :: r2 => parseElems fuel r2 (acc ++ [v])
      | 93 :: r2 => some (.arr (acc ++ [v]), r2)
      | _ => none
    | none => none

end

/-- Exactly `n` hex digits. -/
def isHexCharsLen (cs : List Char) (n : Nat) : Bool :=
  (cs.length == n) && cs.all (fun c => (hexDigit c).isSome)

/-- A `hexutil` quantity: 1 to 16 hex digits, no leading zero except the
single digit 0. -/
def isQuantityChars (cs : List Char) : Bool :=
  match cs with
  | [] => false
  | c :: rest =>
    (hexDigit c).isSome && rest.all (fun c2 => (hexDigit c2).isSome) &&
      (cs.length ≤ 16 : Bool) && (!(c = '0' : Bool) || rest.isEmpty)

/-- A fixed-width hex string: `0x` plus exactly `n` digits
(`hexutil.UnmarshalFixedJSON` for addresses and hashes). -/
def hexStrFixed (s : String) (n : Nat) : Bool :=
  match s.toList with
  | '0' :: 'x' :: rest => isHexCharsLen rest n
  | _ => false

/-- A `hexutil.Bytes` string: `0x` plus an even number of hex digits. -/
def hexStrBytes (s : String) : Bool :=
  match s.toList with
  | '0' :: 'x' :: rest =>
    (rest.length % 2 == 0) && rest.all (fun c => (hexDigit c).isSome)
  | _ => false

/-- A `hexutil.Uint64`/`hexutil.Uint` string: `0x` plus a quantity. -/
def hexStrQuantity (s : String) : Bool :=
  match s.toList with
  | '0' :: 'x' :: rest => isQuantityChars rest
  | _ => false

/-- Field-level validation of the decoded Log object, per the gencodec local
struct: `address` is a 20-byte hex string, `topics` an array of 32-byte hex
strings, `data` a byte hex string, the inclusion counters hex quantities,
`removed` a bool; a JSON null leaves the corresponding pointer field nil;
unknown keys are ignored. -/
def validLogField (k : String) (v : Json) : Bool :=
  if k = "address" then
    match v with
    | .null => true
    | .str s => hexStrFixed s 40
    | _ => false
  else if k = "topics" then
    match v with
    | .null => true
    | .arr es =>
      es.all (fun e =>
        match e with
        | .str s => hexStrFixed s 64
        | _ => false)
    | _ => false
  else if k = "data" then
    match v with
    | .null => true
    | .str s => hexStrBytes s
    | _ => false
  else if k = "blockNumber" ∨ k = "transactionIndex" ∨ k = "logIndex" then
    match v with
    | .null => true
    | .str s => hexStrQuantity s
    | _ => false
  else if k = "transactionHash" ∨ k = "blockHash" then
    match v with
    | .null => true
    | .str s => hexStrFixed s 64
    | _ => false
  else if k = "removed" then
    match v with
    | .null => true
    | .bool _ => true
    | _ => false
  else true

/-- The last binding for a key (`encoding/json` keeps the last duplicate). -/
def jlookLast (fields : List (String × Json)) (k : String) : Option Json :=
  match fields with
  | [] => none
  | (k0, v0) :: rest =>
    match jlookLast rest k with
    | some v => some v
    | none => if k0 = k then some v0 else none

/-- Modelled from go-ethereum's generated `(*types.Log).UnmarshalJSON`
(external to this repository): `json.Unmarshal` into a local struct fails
on input that is not a single well-formed JSON value, on a top-level value
that is not an object or null, or on a known field of the wrong shape; a
nil (absent or null) `address` then fails the required-field check. Each of
these returns an error before anything is written through the receiver.
Only when all of that succeeds does the method assign through the receiver
— the `Except.ok` result, on which the caller's nil log pointer makes the
assignment a nil dereference panic. -/
def logUnmarshalJSON (bs : List Nat) : Except String Unit :=
  match parseVal (8 * bs.length + 64) bs with
  | none => .error ("invalid JSON input")
  | some (v, rest) =>
    if jsonSkipWs rest ≠ [] then .error ("invalid JSON input")
    else
      match v with
      | .null => .error ("missing required field 'address' for Log")
      | .obj fields =>
        if fields.all (fun kv => validLogField kv.1 kv.2) then
          match jlookLast fields "address" with
          | some (.str _) => .ok ()
          | _ => .error ("missing required field 'address' for Log")
        else .error ("cannot unmarshal into Log field")
      | _ => .error ("cannot unmarshal JSON value into Log")

/-- The `logs` entry loop: each entry is asserted to `[]byte` (a non-byte
entry panics at the assertion), then fed to `UnmarshalJSON` through the nil
log pointer: a decode error takes the `continue` skip branch, while a
successful decode writes through the nil receiver and panics. No entry is
ever appended. -/
def decodeLogs : List JVal → Got (List (List Nat))
  | [] => .ok []
  | .bytes bs :: rest =>
    match logUnmarshalJSON bs with
    | .error _ => decodeLogs rest
    | .ok _ => .panicked ("invalid memory address or nil pointer dereference")
  | _ :: _ => .panicked ("interface conversion")

/-- The `status` field: optional, `"0x1"` means 1, anything else 0. -/
def getStatus (m : RMap) : Got Nat :=
  match lookupR m "status" with
  | none => .ok 0
  | some (.str s) => .ok (if s = "0x1" then 1 else 0)
  | some _ => .panicked ("interface conversion")

/-- `func MarshalPrivateReceipt`, step for step in source order:
contractAddress and output (optional), then the required fields
commitmentHash, transactionHash, privateFrom, privateFor, the optional
status, the required logs and logsBloom, and the optional inclusion
fields. -/
def MarshalPrivateReceipt (m : RMap) : Got PrivateReceipt :=
  (getOptString m "contractAddress").andThen fun ca =>
  let contractAddress := match ca with
    | none => List.replicate 20 0
    | some s => hexToAddress s
  (getOptString m "output").andThen fun outS =>
  let output := match outS with
    | none => []
    | some s => match hexutilDecode s with | .ok bs => bs | .error _ => []
  (getRequired m "commitmentHash").andThen fun cv =>
  (asString cv).andThen fun cs =>
  let commitmentHash := hexToHash cs
  (getRequired m "transactionHash").andThen fun tv =>
  (asString tv).andThen fun ts =>
  let transactionHash := hexToHash ts
  (getRequired m "privateFrom").andThen fun pv =>
  (asString pv).andThen fun pfs =>
  (match ToPublicKey pfs with
   | .error e => Got.errored e
   | .ok k => Got.ok k).andThen fun privateFrom =>
  (getRequired m "privateFor").andThen fun fv =>
  (asArr fv).andThen fun fvs =>
  (decodePrivateFor fvs).andThen fun privateFor =>
  (getStatus m).andThen fun status =>
  (getRequired m "logs").andThen fun lv =>
  (asArr lv).andThen fun lvs =>
  (decodeLogs lvs).andThen fun logs =>
  (getRequired m "logsBloom").andThen fun bv =>
  (asString bv).andThen fun blstr =>
  (match hexutilDecode blstr with
   | .error e => Got.errored ("failed to Decode " ++ blstr ++ ", err: " ++ e)
   | .ok bb => Got.ok bb).andThen fun bloomBytes =>
  (bytesToBloom bloomBytes).andThen fun logsBloom =>
  (getOptString m "blockHash").andThen fun bh =>
  let blockHash := match bh with
    | none => List.replicate 32 0
    | some s => hexToHash s
  (getOptString m "blockNumber").andThen fun bn =>
  let blockNumber := match bn with
    | none => none
    | some s => some (parseHex16 s)
  (getOptString m "transactionIndex").andThen fun ti =>
  let transactionIndex := match ti with
    | none => 0
    | some s => (parseHex16 s).toNat % 2 ^ 64
  Got.ok
    { PostState := [], Status := status, Bloom := logsBloom, Logs := logs,
      TxHash := transactionHash, ContractAddress := contractAddress,
      BlockHash := blockHash, BlockNumber := blockNumber,
      TransactionIndex := transactionIndex, PrivateFrom := privateFrom,
      PrivateFor := privateFor, Restriction := "restricted",
      CommitmentHash := commitmentHash, Output := output }

/-! ## Sample values used by witnesses and counterexamples. -/

/-- A concrete transaction. -/
def txSample : Txdata :=
  { AccountNonce := 1, Price := 0, GasLimit := 21000, Recipient := none,
    Amount := 0, Payload := [0xca, 0xfe], V := 0, R := 0, S := 0,
    PrivateFrom := [7], PrivateFor := [[8], [9]],
    Restriction := "restricted" }

/-- `txSample` signed with the all-zero 65-byte signature and chain id 1:
`r = s = 0`, `v = 27`, stored `v = 27 + 1*2 + 8 = 37`. -/
def txSampleSigned : Txdata := { txSample with V := 37 }

/-! ## C3: the signing digest. -/

/-- C3: for every transaction and chain id, the signing digest is the
Keccak-256 hash of the RLP encoding of exactly the field sequence nonce,
gasPrice, gasLimit, recipient (or empty marker when absent), value, payload,
chainId, the literal 0, the literal 0, privateFrom, privateFor as a nested
list of byte strings, restriction. -/
theorem hash_eq_signingDigestSpec (tx : Txdata) (chainID : Nat) :
    hash tx chainID = signingDigestSpec tx chainID := rfl

/-! ## C1: the stored `v` component. -/

/-- C1 counterexample: the claim's formula `(recoveryId + 27) + chainId*2 + 8`
fails at byte-wrap inputs. With a raw signature whose last byte is 229 and
chain id 2018, the offset `sig[64] + 27` is byte arithmetic and wraps to 0,
so the code stores `0 + 2018*2 + 8 = 4044`, while the claimed formula gives
`229 + 27 + 2018*2 + 8 = 4300`. (The spec's own example is fine: a
post-offset recovery byte of 27 — raw recovery id 0 — stores 4071; see the
witness of the amended theorem.) -/
theorem withSignature_v_counterexample :
    (∃ tx1, withSignature txSample (List.replicate 64 0 ++ [229]) 2018 = .ok tx1 ∧
      tx1.V = 4044) ∧ (4044 : Nat) ≠ 229 + 27 + 2018 * 2 + 8 := by
  refine ⟨⟨{ txSample with R := 0, S := 0, V := 4044 }, by decide, rfl⟩, by decide⟩

/-- C1 amended: for every transaction, chain id and 65-byte raw signature,
the stored `v` is the claimed `(recoveryId + 27) + chainId*2 + 8` with the
wraps made explicit: `((sig[64] + 27) mod 256) + (chainId mod 2^64)*2 + 8`
in wrapping `uint64` arithmetic — the `+27` offset is byte arithmetic
applied to the raw recovery byte before the chain id is folded in. For a
raw recovery id of 0 (the spec's post-offset recovery byte 27) and chain id
2018 this stores 4071, as the claim's example states. -/
theorem withSignature_v_amended (tx : Txdata) (sig : List Nat) (chainID : Nat)
    (h : sig.length = 65) :
    ∃ tx1, withSignature tx sig chainID = .ok tx1 ∧
      tx1.V = ((sig.getD 64 0 % 256 + 27) % 256 + (chainID % 2 ^ 64) * 2 + 8)
        % 2 ^ 64 := by
  have hne : ¬ sig.length ≠ 65 := by omega
  unfold withSignature signatureValues
  simp only [if_neg hne]
  refine ⟨_, rfl, ?_⟩
  show u64 (u64 (u64 ((sig.getD 64 0 % 256 + 27) % 256) +
    u64 (u64 chainID * 2)) + 8) = _
  unfold u64
  omega

/-- C1 amended, witness: at `txSample`, the all-zero signature (raw recovery
id 0, i.e. post-offset recovery byte 27) and chain id 2018, the stored `v`
is 4071, exactly the spec's example. -/
theorem withSignature_v_amended_witness :
    (List.replicate 64 (0 : Nat) ++ [0]).length = 65 ∧
    ∃ tx1, withSignature txSample (List.replicate 64 0 ++ [0]) 2018 = .ok tx1 ∧
      tx1.V = 4071 := by
  refine ⟨by decide, ?_⟩
  obtain ⟨tx1, h1, h2⟩ :=
    withSignature_v_amended txSample (List.replicate 64 0 ++ [0]) 2018 (by decide)
  exact ⟨tx1, h1, h2.trans (by decide)⟩

/-! ## C5: behaviour on a malformed raw signature. -/

/-- C5 counterexample: on a 64-byte raw signature, signing does not return
an error result to the caller — it panics (`signatureValues` aborts before
its always-`nil` error return is reached). -/
theorem signatureValues_length_counterexample :
    SignTx txSample 2018 (.ok (List.replicate 64 0)) =
      .panicked ("wrong size for signature: got 64, want 65") ∧
    ¬ ∃ msg, SignTx txSample 2018 (.ok (List.replicate 64 0)) = .errored msg := by
  have h1 : SignTx txSample 2018 (.ok (List.replicate 64 0)) =
      .panicked ("wrong size for signature: got 64, want 65") := by decide
  refine ⟨h1, ?_⟩
  rintro ⟨m, hm⟩
  rw [h1] at hm
  exact TxResult.noConfusion hm

/-- C5 amended: signing produces signature components exactly when the raw
signature has 65 bytes; on any other length it panics (a fatal abort, not a
returned error) with a message naming the wrong size. -/
theorem signatureValues_length_amended (tx : Txdata) (sig : List Nat)
    (chainID : Nat) :
    ((∃ tx1, withSignature tx sig chainID = .ok tx1) ↔ sig.length = 65) ∧
    (sig.length ≠ 65 →
      withSignature tx sig chainID =
        .panicked ("wrong size for signature: got " ++ toString sig.length ++
          ", want 65")) := by
  constructor
  · constructor
    · rintro ⟨tx1, htx⟩
      by_contra hlen
      unfold withSignature signatureValues at htx
      rw [if_pos hlen] at htx
      exact TxResult.noConfusion htx
    · intro hlen
      have hne : ¬ sig.length ≠ 65 := by omega
      unfold withSignature signatureValues
      simp only [if_neg hne]
      exact ⟨_, rfl⟩
  · intro hlen
    unfold withSignature signatureValues
    rw [if_pos hlen]

/-- C5 amended, witness: a concrete 64-byte signature falls in the panic
branch. -/
theorem signatureValues_length_amended_witness :
    (List.replicate 64 (0 : Nat)).length ≠ 65 ∧
    withSignature txSample (List.replicate 64 0) 2018 =
      .panicked ("wrong size for signature: got 64, want 65") := by
  refine ⟨by decide, ?_⟩
  have h := (signatureValues_length_amended txSample (List.replicate 64 0) 2018).2
    (by decide)
  exact h.trans (by decide)

/-! ## C6: signing returns a new value sharing the unsigned fields. -/

/-- C6: every successful signing call returns a transaction whose unsigned
fields (nonce, gasPrice, gasLimit, recipient, value, payload, privateFrom,
privateFor, restriction) equal those of the input; the input value itself is
never written to (`withSignature` builds a copy and replaces only `R`, `S`,
`V` on the copy). -/
theorem signTx_preserves_unsigned_fields (tx : Txdata) (chainID : Nat)
    (sig : Except String (List Nat)) (tx1 : Txdata)
    (h : SignTx tx chainID sig = .ok tx1) :
    tx1.AccountNonce = tx.AccountNonce ∧ tx1.Price = tx.Price ∧
    tx1.GasLimit = tx.GasLimit ∧ tx1.Recipient = tx.Recipient ∧
    tx1.Amount = tx.Amount ∧ tx1.Payload = tx.Payload ∧
    tx1.PrivateFrom = tx.PrivateFrom ∧ tx1.PrivateFor = tx.PrivateFor ∧
    tx1.Restriction = tx.Restriction := by
  cases sig with
  | error e => exact TxResult.noConfusion h
  | ok bytes =>
    simp only [SignTx] at h
    unfold withSignature at h
    cases hsv : signatureValues tx bytes with
    | panicked m => rw [hsv] at h; exact TxResult.noConfusion h
    | ok r s v =>
      rw [hsv] at h
      injection h with h1
      subst h1
      exact ⟨rfl, rfl, rfl, rfl, rfl, rfl, rfl, rfl, rfl⟩

/-- C6 witness: signing `txSample` with the all-zero 65-byte signature and
chain id 1 yields `txSampleSigned`, whose unsigned fields coincide with the
input's. -/
theorem signTx_preserves_unsigned_fields_witness :
    SignTx txSample 1 (.ok (List.replicate 65 0)) = .ok txSampleSigned ∧
    (txSampleSigned.AccountNonce = txSample.AccountNonce ∧
     txSampleSigned.Price = txSample.Price ∧
     txSampleSigned.GasLimit = txSample.GasLimit ∧
     txSampleSigned.Recipient = txSample.Recipient ∧
     txSampleSigned.Amount = txSample.Amount ∧
     txSampleSigned.Payload = txSample.Payload ∧
     txSampleSigned.PrivateFrom = txSample.PrivateFrom ∧
     txSampleSigned.PrivateFor = txSample.PrivateFor ∧
     txSampleSigned.Restriction = txSample.Restriction) :=
  ⟨by decide,
   signTx_preserves_unsigned_fields txSample 1 (.ok (List.replicate 65 0))
     txSampleSigned (by decide)⟩

/-! ## C8: the group-lookup transport parameter. -/

/-- C8 counterexample: for the one-key participant list `[[1]]`, the
parameter handed to the transport is the raw key list, not the list of
base64 strings (which would be `["AQ=="]`). -/
theorem findPrivacyGroup_param_counterexample :
    (findPrivacyGroupRequest [[1]]).2 = RpcParam.rawKeys [[1]] ∧
    (findPrivacyGroupRequest [[1]]).2 ≠
      RpcParam.strList [PublicKey.ToString [1]] ∧
    PublicKey.ToString [1] = "AQ==" := by
  refine ⟨rfl, ?_, by decide⟩
  intro hcontra
  exact RpcParam.noConfusion hcontra

/-- C8 amended: the lookup computes the base64 encodings of the keys but
passes the raw participant key list as the RPC parameter (the base64 string
list is dead code); the parameter is never the base64 string list. -/
theorem findPrivacyGroup_param_amended (participants : List PublicKey) :
    findPrivacyGroupRequest participants =
      ("priv_findPrivacyGroup", RpcParam.rawKeys participants) ∧
    (findPrivacyGroupRequest participants).2 ≠
      RpcParam.strList (participants.map PublicKey.ToString) := by
  refine ⟨rfl, ?_⟩
  intro hcontra
  exact RpcParam.noConfusion hcontra

/-- C8 amended, witness: the concrete one-key request. -/
theorem findPrivacyGroup_param_amended_witness :
    findPrivacyGroupRequest [[1]] =
      ("priv_findPrivacyGroup", RpcParam.rawKeys [[1]]) :=
  (findPrivacyGroup_param_amended [[1]]).1

/-! ## C7: construction normalizes, defends the payload, zeroes signatures. -/

/-- Reading the buffer just allocated at the end of the store. -/
theorem readBuf_append (mem : Mem) (b : List Nat) :
    readBuf (mem ++ [b]) mem.length = b := by
  induction mem with
  | nil => rfl
  | cons x xs ih =>
    simp only [readBuf, List.cons_append, List.length_cons, List.getD_cons_succ] at ih ⊢
    exact ih

/-- Writing one buffer leaves every other buffer unchanged. -/
theorem readBuf_writeBuf_ne (mem : Mem) (ref pos val idx : Nat)
    (h : ref ≠ idx) : readBuf (writeBuf mem ref pos val) idx = readBuf mem idx := by
  simp [readBuf, writeBuf, List.getD, List.getElem?_set_ne h]

/-- Writing into a buffer replaces it by the bytewise-updated buffer (out of
range positions change nothing; a dangling reference changes nothing). -/
theorem readBuf_writeBuf_self (mem : Mem) (ref pos val : Nat) :
    readBuf (writeBuf mem ref pos val) ref =
      (readBuf mem ref).set pos (val % 256) := by
  by_cases h : ref < mem.length
  · simp [readBuf, writeBuf, List.getD, List.getElem?_set_self h]
  · have hle : mem.length ≤ ref := by omega
    have : readBuf mem ref = [] := by
      simp [readBuf, List.getD, List.getElem?_eq_none hle]
    simp [writeBuf, this, List.set_eq_of_length_le hle, readBuf, List.getD,
      List.getElem?_eq_none hle]

/-- C7: construction (including with nil value and nil gas price) yields a
transaction whose value and gas price default to zero when the argument is
absent, whose restriction is the literal string `"restricted"`, whose
signature fields `v`, `r`, `s` are zero, and whose payload is a defensive
copy of the supplied bytes: it reads back as the bytes supplied, and stays
unchanged under any later in-place mutation of the caller's slice. -/
theorem newTransaction_construction (mem : Mem) (nonce : Nat)
    (toAddr : Option (List Nat)) (amount : Option Nat) (gasLimit : Nat)
    (gasPrice : Option Nat) (dataRef : Nat) (privateFrom : List Nat)
    (privateFor : List (List Nat)) :
    (newTransaction mem nonce toAddr amount gasLimit gasPrice dataRef
        privateFrom privateFor).2.Amount = amount.getD 0 ∧
    (newTransaction mem nonce toAddr amount gasLimit gasPrice dataRef
        privateFrom privateFor).2.Price = gasPrice.getD 0 ∧
    (newTransaction mem nonce toAddr amount gasLimit gasPrice dataRef
        privateFrom privateFor).2.Restriction = "restricted" ∧
    (newTransaction mem nonce toAddr amount gasLimit gasPrice dataRef
        privateFrom privateFor).2.V = 0 ∧
    (newTransaction mem nonce toAddr amount gasLimit gasPrice dataRef
        privateFrom privateFor).2.R = 0 ∧
    (newTransaction mem nonce toAddr amount gasLimit gasPrice dataRef
        privateFrom privateFor).2.S = 0 ∧
    readBuf
      (newTransaction mem nonce toAddr amount gasLimit gasPrice dataRef
        privateFrom privateFor).1
      (newTransaction mem nonce toAddr amount gasLimit gasPrice dataRef
        privateFrom privateFor).2.PayloadRef = readBuf mem dataRef ∧
    ∀ pos val,
      readBuf
        (writeBuf
          (newTransaction mem nonce toAddr amount gasLimit gasPrice dataRef
            privateFrom privateFor).1 dataRef pos val)
        (newTransaction mem nonce toAddr amount gasLimit gasPrice dataRef
          privateFrom privateFor).2.PayloadRef = readBuf mem dataRef := by
  by_cases h : 0 < (readBuf mem dataRef).length
  · have hlt : dataRef < mem.length := by
      by_contra hge
      have : readBuf mem dataRef = [] := by
        simp [readBuf, List.getD, List.getElem?_eq_none (by omega : mem.length ≤ dataRef)]
      rw [this] at h
      exact absurd h (by simp)
    have hne : dataRef ≠ mem.length := by omega
    simp only [newTransaction, if_pos h]
    refine ⟨trivial, trivial, trivial, trivial, trivial, trivial, ?_, ?_⟩
    · exact readBuf_append mem (readBuf mem dataRef)
    · intro pos val
      rw [readBuf_writeBuf_ne _ _ _ _ _ hne]
      exact readBuf_append mem (readBuf mem dataRef)
  · have hempty : readBuf mem dataRef = [] := by
      cases he : readBuf mem dataRef with
      | nil => rfl
      | cons x xs => rw [he] at h; exact absurd (by simp) h
    simp only [newTransaction, if_neg h]
    refine ⟨trivial, trivial, trivial, trivial, trivial, trivial, trivial, ?_⟩
    intro pos val
    rw [readBuf_writeBuf_self, hempty]
    simp [hempty]

/-! ## C9 and C10: receipt mapping. -/

/-- An absent key trivially satisfies the present-as-string side condition. -/
theorem strhyp_of_none {m : RMap} {k : String} (h : lookupR m k = none) :
    ∀ v, lookupR m k = some v → ∃ s, v = JVal.str s := by
  intro v hv
  rw [h] at hv
  exact Option.noConfusion hv

/-- A key bound to a string satisfies the present-as-string side
condition. -/
theorem strhyp_of_str {m : RMap} {k s : String}
    (h : lookupR m k = some (JVal.str s)) :
    ∀ v, lookupR m k = some v → ∃ s2, v = JVal.str s2 := by
  intro v hv
  rw [h] at hv
  injection hv with h2
  exact ⟨s, h2.symm⟩

/-- An optional string field read succeeds when the key is absent or bound
to a string. -/
theorem getOptString_exists (m : RMap) (k : String)
    (h : ∀ v, lookupR m k = some v → ∃ s, v = JVal.str s) :
    ∃ o, getOptString m k = .ok o := by
  cases hv : lookupR m k with
  | none => exact ⟨none, by simp [getOptString, hv]⟩
  | some v =>
    obtain ⟨s, rfl⟩ := h v hv
    exact ⟨some s, by simp [getOptString, hv]⟩

/-- The privateFor loop succeeds on a list of string entries. -/
theorem decodePrivateFor_exists (fvs : List JVal)
    (h : ∀ v ∈ fvs, ∃ s, v = JVal.str s) :
    ∃ ks, decodePrivateFor fvs = .ok ks := by
  induction fvs with
  | nil => exact ⟨[], rfl⟩
  | cons v rest ih =>
    obtain ⟨s, rfl⟩ := h v (by simp)
    obtain ⟨ks, hks⟩ := ih (fun w hw => h w (by simp [hw]))
    cases htp : ToPublicKey s with
    | error e =>
      exact ⟨ks, by simp [decodePrivateFor, asString, Got.andThen, htp, hks]⟩
    | ok k =>
      exact ⟨k :: ks, by simp [decodePrivateFor, asString, Got.andThen, htp, hks]⟩

/-- The status field read succeeds when absent or bound to a string. -/
theorem getStatus_exists (m : RMap)
    (h : ∀ v, lookupR m "status" = some v → ∃ s, v = JVal.str s) :
    ∃ n, getStatus m = .ok n := by
  cases hv : lookupR m "status" with
  | none => exact ⟨0, by simp [getStatus, hv]⟩
  | some v =>
    obtain ⟨s, rfl⟩ := h v hv
    exact ⟨if s = "0x1" then 1 else 0, by simp [getStatus, hv]⟩

/-- C9 counterexample: the empty response map lacks `logs`, yet the mapping
fails with `"commitmentHash not found"`, an error that does not name
`logs` (the required-field checks run in source order and `commitmentHash`
is checked first). -/
theorem marshalReceipt_missing_logs_counterexample :
    MarshalPrivateReceipt [] = .errored ("commitmentHash not found") ∧
    ¬ List.IsInfix "logs".toList "commitmentHash not found".toList := by
  exact ⟨rfl, by decide⟩

/-- C9 amended: required-field checks run in the fixed source order
commitmentHash, transactionHash, privateFrom, privateFor, logs, and the
returned error names the first missing required field. In particular a map
lacking `commitmentHash` fails naming it; a map with a string-valued
`commitmentHash` but no `transactionHash` fails naming `transactionHash`;
and a map whose earlier required fields are present and well-formed but
which lacks `logs` fails with the error naming `logs` — never a receipt
with an empty log list. -/
theorem marshalReceipt_missing_field_errors (m : RMap) :
    (lookupR m "commitmentHash" = none →
      (∀ v, lookupR m "contractAddress" = some v → ∃ s, v = JVal.str s) →
      (∀ v, lookupR m "output" = some v → ∃ s, v = JVal.str s) →
      MarshalPrivateReceipt m = .errored ("commitmentHash not found")) ∧
    (∀ cs, lookupR m "commitmentHash" = some (JVal.str cs) →
      lookupR m "transactionHash" = none →
      (∀ v, lookupR m "contractAddress" = some v → ∃ s, v = JVal.str s) →
      (∀ v, lookupR m "output" = some v → ∃ s, v = JVal.str s) →
      MarshalPrivateReceipt m = .errored ("transactionHash not found")) ∧
    (∀ cs ts pfs pfk fvs,
      lookupR m "commitmentHash" = some (JVal.str cs) →
      lookupR m "transactionHash" = some (JVal.str ts) →
      lookupR m "privateFrom" = some (JVal.str pfs) →
      ToPublicKey pfs = .ok pfk →
      lookupR m "privateFor" = some (JVal.arr fvs) →
      (∀ v ∈ fvs, ∃ s, v = JVal.str s) →
      (∀ v, lookupR m "contractAddress" = some v → ∃ s, v = JVal.str s) →
      (∀ v, lookupR m "output" = some v → ∃ s, v = JVal.str s) →
      (∀ v, lookupR m "status" = some v → ∃ s, v = JVal.str s) →
      lookupR m "logs" = none →
      MarshalPrivateReceipt m = .errored ("logs not found")) := by
  refine ⟨?_, ?_, ?_⟩
  · intro hcm hca hout
    obtain ⟨o1, h1⟩ := getOptString_exists m "contractAddress" hca
    obtain ⟨o2, h2⟩ := getOptString_exists m "output" hout
    simp [MarshalPrivateReceipt, h1, h2, getRequired, hcm, Got.andThen]
  · intro cs hcm htx hca hout
    obtain ⟨o1, h1⟩ := getOptString_exists m "contractAddress" hca
    obtain ⟨o2, h2⟩ := getOptString_exists m "output" hout
    simp [MarshalPrivateReceipt, h1, h2, getRequired, hcm, htx, asString,
      Got.andThen]
  · intro cs ts pfs pfk fvs hcm htx hpf hpfk hfor hforstr hca hout hst hlogs
    obtain ⟨o1, h1⟩ := getOptString_exists m "contractAddress" hca
    obtain ⟨o2, h2⟩ := getOptString_exists m "output" hout
    obtain ⟨ks, hks⟩ := decodePrivateFor_exists fvs hforstr
    obtain ⟨n, hn⟩ := getStatus_exists m hst
    simp [MarshalPrivateReceipt, h1, h2, getRequired, hcm, htx, hpf, hpfk,
      hfor, hks, hn, hlogs, asString, asArr, Got.andThen]

/-- C9 amended, witness: the three error cases at concrete maps. -/
theorem marshalReceipt_missing_field_errors_witness :
    MarshalPrivateReceipt [] = .errored ("commitmentHash not found") ∧
    MarshalPrivateReceipt [("commitmentHash", JVal.str "")] =
      .errored ("transactionHash not found") ∧
    MarshalPrivateReceipt
        [("commitmentHash", JVal.str ""), ("transactionHash", JVal.str ""),
         ("privateFrom", JVal.str ""), ("privateFor", JVal.arr [])] =
      .errored ("logs not found") := by
  refine ⟨?_, ?_, ?_⟩
  · exact (marshalReceipt_missing_field_errors []).1 rfl
      (strhyp_of_none rfl) (strhyp_of_none rfl)
  · exact (marshalReceipt_missing_field_errors _).2.1 "" rfl rfl
      (strhyp_of_none rfl) (strhyp_of_none rfl)
  · exact (marshalReceipt_missing_field_errors _).2.2 "" "" "" [] [] rfl
      rfl rfl rfl rfl (by simp)
      (strhyp_of_none rfl) (strhyp_of_none rfl)
      (strhyp_of_none rfl) rfl

/-- A decode error skips the entry: the loop result on the rest. -/
theorem decodeLogs_skip (bs : List Nat) (rest : List JVal) (e : String)
    (h : logUnmarshalJSON bs = .error e) :
    decodeLogs (JVal.bytes bs :: rest) = decodeLogs rest := by
  simp [decodeLogs, h]

/-- A list of entries that all fail to decode leaves the loop with the
empty log list. -/
theorem decodeLogs_all_malformed (lvs : List JVal)
    (h : ∀ v ∈ lvs, ∃ bs e, v = JVal.bytes bs ∧ logUnmarshalJSON bs = .error e) :
    decodeLogs lvs = .ok [] := by
  induction lvs with
  | nil => rfl
  | cons v rest ih =>
    obtain ⟨bs, e, rfl, he⟩ := h v (by simp)
    rw [decodeLogs_skip bs rest e he]
    exact ih (fun w hw => h w (by simp [hw]))

/-- The loop never produces a non-empty log list: a successful decode
panics before the append. -/
theorem decodeLogs_ok_nil (lvs : List JVal) (ls : List (List Nat))
    (h : decodeLogs lvs = .ok ls) : ls = [] := by
  induction lvs with
  | nil =>
    simp only [decodeLogs] at h
    injection h with h2
    exact h2.symm
  | cons v rest ih =>
    cases v with
    | bytes bs =>
      simp only [decodeLogs] at h
      cases hu : logUnmarshalJSON bs with
      | error e => rw [hu] at h; exact ih h
      | ok u => rw [hu] at h; exact Got.noConfusion h
    | str s => simp [decodeLogs] at h
    | arr a => simp [decodeLogs] at h
    | other => simp [decodeLogs] at h

/-- Inversion of one sequencing step ending in a normal return. -/
theorem Got.andThen_ok {α β : Type} {x : Got α} {f : α → Got β} {b : β}
    (h : x.andThen f = .ok b) : ∃ a, x = .ok a ∧ f a = .ok b := by
  cases x with
  | ok a => exact ⟨a, rfl, h⟩
  | errored e => simp [Got.andThen] at h
  | panicked e => simp [Got.andThen] at h

/-- A response map whose required fields are all present and whose single
log entry is the byte string `[0x01]` — not valid JSON, so the generated
`UnmarshalJSON` rejects it before touching its nil receiver. -/
def receiptMapSkip : RMap :=
  [("commitmentHash", JVal.str ""), ("transactionHash", JVal.str ""),
   ("privateFrom", JVal.str ""), ("privateFor", JVal.arr []),
   ("logs", JVal.arr [JVal.bytes [1]]), ("logsBloom", JVal.str "0x")]

/-- C10 counterexample: a map that passes every required-field check and
whose `logs` entry is a non-empty list, yet the mapping returns normally
with an empty log list and no panic — the malformed entry `[0x01]` makes
`UnmarshalJSON` return an error before dereferencing the nil log pointer,
so the skip-on-error branch runs. -/
theorem marshalReceipt_log_skip_counterexample :
    (∃ r, MarshalPrivateReceipt receiptMapSkip = Got.ok r ∧ r.Logs = []) ∧
    ¬ ∃ msg, MarshalPrivateReceipt receiptMapSkip = Got.panicked msg := by
  have h1 : ∃ r, MarshalPrivateReceipt receiptMapSkip = Got.ok r ∧
      r.Logs = [] := ⟨_, rfl, rfl⟩
  refine ⟨h1, ?_⟩
  obtain ⟨r, hr, _⟩ := h1
  rintro ⟨msg, hmsg⟩
  rw [hr] at hmsg
  exact Got.noConfusion hmsg

/-- C10 amended: on every response map whose required fields up to `logs`
are present and well-formed and whose `logs` entry is a list, each `[]byte`
entry is handed to `UnmarshalJSON` through the nil log pointer: an entry
that decodes successfully panics with the nil-pointer dereference when the
method writes through the receiver, while entries that fail to decode are
skipped — if every entry is such a malformed byte string the loop returns
normally and the mapping proceeds (here surfacing the `logsBloom` check).
Consequently no log is ever retained: every successfully mapped receipt
carries an empty log list. -/
theorem marshalReceipt_log_loop_amended (m : RMap) (cs ts pfs : String)
    (pfk : PublicKey) (fvs lvs : List JVal)
    (hcm : lookupR m "commitmentHash" = some (JVal.str cs))
    (htx : lookupR m "transactionHash" = some (JVal.str ts))
    (hpf : lookupR m "privateFrom" = some (JVal.str pfs))
    (hpfk : ToPublicKey pfs = .ok pfk)
    (hfor : lookupR m "privateFor" = some (JVal.arr fvs))
    (hforstr : ∀ v ∈ fvs, ∃ s, v = JVal.str s)
    (hca : ∀ v, lookupR m "contractAddress" = some v → ∃ s, v = JVal.str s)
    (hout : ∀ v, lookupR m "output" = some v → ∃ s, v = JVal.str s)
    (hst : ∀ v, lookupR m "status" = some v → ∃ s, v = JVal.str s)
    (hlogs : lookupR m "logs" = some (JVal.arr lvs)) :
    (∀ bs rest, lvs = JVal.bytes bs :: rest → logUnmarshalJSON bs = .ok () →
      MarshalPrivateReceipt m =
        .panicked ("invalid memory address or nil pointer dereference")) ∧
    ((∀ v ∈ lvs, ∃ bs e, v = JVal.bytes bs ∧ logUnmarshalJSON bs = .error e) →
      lookupR m "logsBloom" = none →
      MarshalPrivateReceipt m = .errored ("logsBloom not found")) ∧
    (∀ m2 r, MarshalPrivateReceipt m2 = .ok r → r.Logs = []) := by
  obtain ⟨o1, h1⟩ := getOptString_exists m "contractAddress" hca
  obtain ⟨o2, h2⟩ := getOptString_exists m "output" hout
  obtain ⟨ks, hks⟩ := decodePrivateFor_exists fvs hforstr
  obtain ⟨n, hn⟩ := getStatus_exists m hst
  refine ⟨?_, ?_, ?_⟩
  · intro bs rest hlv hok
    subst hlv
    simp [MarshalPrivateReceipt, h1, h2, getRequired, hcm, htx, hpf, hpfk,
      hfor, hks, hn, hlogs, asString, asArr, decodeLogs, hok, Got.andThen]
  · intro hall hbloom
    simp [MarshalPrivateReceipt, h1, h2, getRequired, hcm, htx, hpf, hpfk,
      hfor, hks, hn, hlogs, hbloom, asString, asArr,
      decodeLogs_all_malformed lvs hall, Got.andThen]
  · intro m2 r h
    unfold MarshalPrivateReceipt at h
    obtain ⟨a1, e1, h⟩ := Got.andThen_ok h
    obtain ⟨a2, e2, h⟩ := Got.andThen_ok h
    obtain ⟨a3, e3, h⟩ := Got.andThen_ok h
    obtain ⟨a4, e4, h⟩ := Got.andThen_ok h
    obtain ⟨a5, e5, h⟩ := Got.andThen_ok h
    obtain ⟨a6, e6, h⟩ := Got.andThen_ok h
    obtain ⟨a7, e7, h⟩ := Got.andThen_ok h
    obtain ⟨a8, e8, h⟩ := Got.andThen_ok h
    obtain ⟨a9, e9, h⟩ := Got.andThen_ok h
    obtain ⟨a10, e10, h⟩ := Got.andThen_ok h
    obtain ⟨a11, e11, h⟩ := Got.andThen_ok h
    obtain ⟨a12, e12, h⟩ := Got.andThen_ok h
    obtain ⟨a13, e13, h⟩ := Got.andThen_ok h
    obtain ⟨a14, e14, h⟩ := Got.andThen_ok h
    obtain ⟨a15, e15, h⟩ := Got.andThen_ok h
    obtain ⟨lgs, hlgs, h⟩ := Got.andThen_ok h
    obtain ⟨a17, e17, h⟩ := Got.andThen_ok h
    obtain ⟨a18, e18, h⟩ := Got.andThen_ok h
    obtain ⟨a19, e19, h⟩ := Got.andThen_ok h
    obtain ⟨a20, e20, h⟩ := Got.andThen_ok h
    obtain ⟨a21, e21, h⟩ := Got.andThen_ok h
    obtain ⟨a22, e22, h⟩ := Got.andThen_ok h
    obtain ⟨a23, e23, h⟩ := Got.andThen_ok h
    injection h with h2
    rw [← h2]
    exact decodeLogs_ok_nil _ _ hlgs

/-- C10 amended, witness: the error-skip case at `[0x01]` (the mapping
surfaces the missing `logsBloom`), the panic case at a byte string that
decodes as a well-formed Log object, and the empty-log-list guarantee at
the fully successful map. -/
theorem marshalReceipt_log_loop_amended_witness :
    MarshalPrivateReceipt
        [("commitmentHash", JVal.str ""), ("transactionHash", JVal.str ""),
         ("privateFrom", JVal.str ""), ("privateFor", JVal.arr []),
         ("logs", JVal.arr [JVal.bytes [1]])] =
      .errored ("logsBloom not found") ∧
    MarshalPrivateReceipt
        [("commitmentHash", JVal.str ""), ("transactionHash", JVal.str ""),
         ("privateFrom", JVal.str ""), ("privateFor", JVal.arr []),
         ("logs", JVal.arr [JVal.bytes (strBytes
           ("\x7b\"address\":\"0x0000000000000000000000000000000000000000\"\x7d"))])] =
      .panicked ("invalid memory address or nil pointer dereference") ∧
    (∃ r, MarshalPrivateReceipt receiptMapSkip = Got.ok r ∧ r.Logs = []) := by
  refine ⟨?_, ?_, ?_⟩
  · exact (marshalReceipt_log_loop_amended
      [("commitmentHash", JVal.str ""), ("transactionHash", JVal.str ""),
       ("privateFrom", JVal.str ""), ("privateFor", JVal.arr []),
       ("logs", JVal.arr [JVal.bytes [1]])]
      "" "" "" [] [] [JVal.bytes [1]]
      rfl rfl rfl rfl rfl (by simp) (strhyp_of_none rfl) (strhyp_of_none rfl)
      (strhyp_of_none rfl) rfl).2.1
      (by rintro v hv
          simp only [List.mem_singleton] at hv
          subst hv
          exact ⟨[1], "invalid JSON input", rfl, rfl⟩)
      rfl
  · exact (marshalReceipt_log_loop_amended
      [("commitmentHash", JVal.str ""), ("transactionHash", JVal.str ""),
       ("privateFrom", JVal.str ""), ("privateFor", JVal.arr []),
       ("logs", JVal.arr [JVal.bytes (strBytes
         ("\x7b\"address\":\"0x0000000000000000000000000000000000000000\"\x7d"))])]
      "" "" "" [] []
      [JVal.bytes (strBytes
        ("\x7b\"address\":\"0x0000000000000000000000000000000000000000\"\x7d"))]
      rfl rfl rfl rfl rfl (by simp) (strhyp_of_none rfl) (strhyp_of_none rfl)
      (strhyp_of_none rfl) rfl).1
      (strBytes ("\x7b\"address\":\"0x0000000000000000000000000000000000000000\"\x7d"))
      [] rfl (by rfl)
  · obtain ⟨rr, hrr⟩ : ∃ rr, MarshalPrivateReceipt receiptMapSkip = Got.ok rr :=
      ⟨_, rfl⟩
    exact ⟨rr, hrr,
      (marshalReceipt_log_loop_amended
        [("commitmentHash", JVal.str ""), ("transactionHash", JVal.str ""),
         ("privateFrom", JVal.str ""), ("privateFor", JVal.arr []),
         ("logs", JVal.arr [JVal.bytes [1]])]
        "" "" "" [] [] [JVal.bytes [1]]
        rfl rfl rfl rfl rfl (by simp) (strhyp_of_none rfl) (strhyp_of_none rfl)
        (strhyp_of_none rfl) rfl).2.2 receiptMapSkip rr hrr⟩

/-! ## C2 and C4: the deterministic participant ordering.
The hash-map overwrite semantics is characterized through `lastWith`:
the latest participant in supply order carrying a given accumulator hash. -/

/-- The last element of `ps` whose folding hash is `h` (later elements win,
mirroring the map overwrite in `sort`). -/
def lastWith (ps : List PublicKey) (h : Int) : Option PublicKey :=
  match ps with
  | [] => none
  | p :: rest =>
    (lastWith rest h).or (if PublicKey.Hash p = h then some p else none)

/-- Lookup after insertion: the inserted binding shadows the old one. -/
theorem lookupHM_insertHM (m : List (Int × PublicKey)) (k : Int)
    (v : PublicKey) (h : Int) :
    lookupHM (insertHM m k v) h = if k = h then some v else lookupHM m h := by
  induction m with
  | nil =>
    by_cases hk : k = h <;> simp [insertHM, lookupHM, hk]
  | cons kv rest ih =>
    obtain ⟨k0, v0⟩ := kv
    by_cases hk0 : k0 = k
    · subst hk0
      by_cases hk : k0 = h <;> simp [insertHM, lookupHM, hk]
    · by_cases hk : k0 = h
      · subst hk
        have hne : ¬ k = k0 := fun hh => hk0 hh.symm
        simp [insertHM, lookupHM, hk0, hne]
      · simp [insertHM, lookupHM, hk0, hk, ih]

/-- Lookup in the folded map: the latest binding for `h` wins, falling back
to the accumulator map. -/
theorem lookupHM_foldl (ps : List PublicKey) (m : List (Int × PublicKey))
    (h : Int) :
    lookupHM (ps.foldl (fun m2 p => insertHM m2 (PublicKey.Hash p) p) m) h =
      (lastWith ps h).or (lookupHM m h) := by
  induction ps generalizing m with
  | nil => simp [lastWith]
  | cons p rest ih =>
    simp only [List.foldl_cons, lastWith]
    rw [ih, lookupHM_insertHM]
    by_cases hp : PublicKey.Hash p = h <;>
      cases hlw : lastWith rest h <;>
        simp [hp, Option.or]

/-- Lookup in the hash map built by `sort`. -/
theorem lookupHM_buildHM (ps : List PublicKey) (h : Int) :
    lookupHM (buildHM ps) h = lastWith ps h := by
  unfold buildHM
  rw [lookupHM_foldl]
  cases lastWith ps h <;> simp [lookupHM, Option.or]

/-- The survivor for a hash value is a participant carrying that hash. -/
theorem lastWith_eq_some (ps : List PublicKey) (h : Int) (p : PublicKey)
    (hp : lastWith ps h = some p) : p ∈ ps ∧ PublicKey.Hash p = h := by
  induction ps with
  | nil => exact Option.noConfusion hp
  | cons q rest ih =>
    unfold lastWith at hp
    cases hlw : lastWith rest h with
    | some r =>
      rw [hlw] at hp
      simp only [Option.or] at hp
      injection hp with h2
      subst h2
      obtain ⟨hm, hh⟩ := ih hlw
      exact ⟨List.mem_cons_of_mem q hm, hh⟩
    | none =>
      rw [hlw] at hp
      simp only [Option.or] at hp
      by_cases hq : PublicKey.Hash q = h
      · rw [if_pos hq] at hp
        injection hp with h2
        subst h2
        exact ⟨List.mem_cons_self q rest, hq⟩
      · rw [if_neg hq] at hp
        exact Option.noConfusion hp

/-- No survivor exactly when no participant carries the hash. -/
theorem lastWith_eq_none_iff (ps : List PublicKey) (h : Int) :
    lastWith ps h = none ↔ h ∉ ps.map PublicKey.Hash := by
  induction ps with
  | nil => simp [lastWith]
  | cons q rest ih =>
    simp only [lastWith, List.map_cons, List.mem_cons]
    cases hlw : lastWith rest h with
    | some r =>
      simp only [Option.or]
      constructor
      · intro hcontra; exact Option.noConfusion hcontra
      · intro hnot
        exfalso
        apply hnot
        right
        by_contra hmem
        exact Option.noConfusion ((ih.mpr hmem).symm.trans hlw)
    | none =>
      have hnotrest : h ∉ rest.map PublicKey.Hash := ih.mp hlw
      simp only [Option.or]
      by_cases hq : PublicKey.Hash q = h
      · rw [if_pos hq]
        constructor
        · intro hcontra; exact Option.noConfusion hcontra
        · intro hnot; exact absurd (Or.inl hq.symm) hnot
      · rw [if_neg hq]
        constructor
        · intro _ hor
          rcases hor with hl | hr
          · exact hq hl.symm
          · exact hnotrest hr
        · intro _; rfl

/-- Under hash-injectivity, each participant survives under its own hash. -/
theorem lastWith_mem_inj (ps : List PublicKey) (p : PublicKey)
    (hmem : p ∈ ps)
    (hinj : ∀ a ∈ ps, ∀ b ∈ ps,
      PublicKey.Hash a = PublicKey.Hash b → a = b) :
    lastWith ps (PublicKey.Hash p) = some p := by
  induction ps with
  | nil => exact absurd hmem (List.not_mem_nil p)
  | cons q rest ih =>
    by_cases hq : p ∈ rest
    · have hrest := ih hq (fun a ha b hb =>
        hinj a (List.mem_cons_of_mem q ha) b (List.mem_cons_of_mem q hb))
      unfold lastWith
      rw [hrest]
      simp [Option.or]
    · have hpq : p = q := by
        rcases List.mem_cons.mp hmem with heq | hmem2
        · exact heq
        · exact absurd hmem2 hq
      subst hpq
      have hnone : lastWith rest (PublicKey.Hash p) = none := by
        cases hlw : lastWith rest (PublicKey.Hash p) with
        | none => rfl
        | some r =>
          obtain ⟨hrmem, hrhash⟩ := lastWith_eq_some rest _ r hlw
          have : r = p := hinj r (List.mem_cons_of_mem p hrmem) p
            (List.mem_cons_self p rest) hrhash
          subst this
          exact absurd hrmem hq
      unfold lastWith
      rw [hnone]
      simp [Option.or]

/-- Keys of the map after insertion. -/
theorem keys_insertHM (m : List (Int × PublicKey)) (k : Int) (v : PublicKey) :
    (insertHM m k v).map Prod.fst =
      if k ∈ m.map Prod.fst then m.map Prod.fst else m.map Prod.fst ++ [k] := by
  induction m with
  | nil => simp [insertHM]
  | cons kv rest ih =>
    obtain ⟨k0, v0⟩ := kv
    by_cases hk0 : k0 = k
    · subst hk0
      simp [insertHM]
    · have hne : ¬ k = k0 := fun hh => hk0 hh.symm
      simp only [insertHM, if_neg hk0, List.map_cons, ih, List.mem_cons]
      by_cases hmem : k ∈ rest.map Prod.fst
      · rw [if_pos hmem, if_pos (Or.inr hmem)]
      · rw [if_neg hmem, if_neg (by rintro (h1 | h2); exact hne h1; exact hmem h2),
          List.cons_append]

/-- Appending a fresh element keeps a list duplicate-free. -/
theorem nodup_concat (l : List Int) (k : Int) (hl : l.Nodup) (hk : k ∉ l) :
    (l ++ [k]).Nodup := by
  induction l with
  | nil => simp
  | cons x xs ih =>
    rw [List.nodup_cons] at hl
    rw [List.cons_append, List.nodup_cons]
    constructor
    · intro hmem
      rcases List.mem_append.mp hmem with h1 | h2
      · exact hl.1 h1
      · have hx : x = k := by simpa using h2
        exact hk (by rw [hx]; exact List.mem_cons_self k xs)
    · exact ih hl.2 (fun hc => hk (List.mem_cons_of_mem x hc))

/-- Insertion preserves key distinctness. -/
theorem nodup_keys_insertHM (m : List (Int × PublicKey)) (k : Int)
    (v : PublicKey) (h : (m.map Prod.fst).Nodup) :
    ((insertHM m k v).map Prod.fst).Nodup := by
  rw [keys_insertHM]
  by_cases hmem : k ∈ m.map Prod.fst
  · rw [if_pos hmem]; exact h
  · rw [if_neg hmem]; exact nodup_concat _ k h hmem

/-- The keys of the hash map built by `sort` are distinct. -/
theorem nodup_keys_buildHM (ps : List PublicKey) :
    ((buildHM ps).map Prod.fst).Nodup := by
  unfold buildHM
  have hgen : ∀ m : List (Int × PublicKey), (m.map Prod.fst).Nodup →
      ((ps.foldl (fun m2 p => insertHM m2 (PublicKey.Hash p) p) m).map
        Prod.fst).Nodup := by
    induction ps with
    | nil => intro m hm; exact hm
    | cons p rest ih =>
      intro m hm
      exact ih _ (nodup_keys_insertHM m (PublicKey.Hash p) p hm)
  exact hgen [] (by simp)

/-- A key is in the map exactly when a lookup succeeds. -/
theorem lookupHM_eq_none_iff (m : List (Int × PublicKey)) (h : Int) :
    lookupHM m h = none ↔ h ∉ m.map Prod.fst := by
  induction m with
  | nil => simp [lookupHM]
  | cons kv rest ih =>
    obtain ⟨k0, v0⟩ := kv
    simp only [lookupHM, List.map_cons, List.mem_cons]
    by_cases hk : k0 = h
    · subst hk
      rw [if_pos rfl]
      constructor
      · intro hcontra; exact Option.noConfusion hcontra
      · intro hnot; exact absurd (Or.inl rfl) hnot
    · rw [if_neg hk, ih]
      constructor
      · intro hnot hor
        rcases hor with h1 | h2
        · exact hk h1.symm
        · exact hnot h2
      · intro hnot h2
        exact hnot (Or.inr h2)

/-- Every binding of the built map pairs a participant with its own hash. -/
theorem hash_eq_of_lookupHM_buildHM (ps : List PublicKey) (h : Int)
    (p : PublicKey) (hp : lookupHM (buildHM ps) h = some p) :
    PublicKey.Hash p = h ∧ p ∈ ps := by
  rw [lookupHM_buildHM] at hp
  obtain ⟨hm, hh⟩ := lastWith_eq_some ps h p hp
  exact ⟨hh, hm⟩

/-- Mapping the hash over a filterMap whose function recovers each key. -/
theorem filterMap_hash_eq (l : List Int) (f : Int → Option PublicKey)
    (hf : ∀ k ∈ l, ∃ p, f k = some p ∧ PublicKey.Hash p = k) :
    (l.filterMap f).map PublicKey.Hash = l := by
  induction l with
  | nil => rfl
  | cons k rest ih =>
    obtain ⟨p, hp, hh⟩ := hf k (List.mem_cons_self k rest)
    rw [List.filterMap_cons, hp]
    simp only [List.map_cons, hh]
    rw [ih (fun k2 hk2 => hf k2 (List.mem_cons_of_mem k hk2))]

/-- The hashes listed by the deterministic ordering: exactly the sorted key
list of the built map. -/
theorem sort_map_hash (ps : List PublicKey) :
    (sort ps).map PublicKey.Hash =
      sortInts ((buildHM ps).map Prod.fst) := by
  unfold sort
  apply filterMap_hash_eq
  intro k hk
  have hk2 : k ∈ (buildHM ps).map Prod.fst :=
    (List.mem_insertionSort (fun a b => a ≤ b)).mp hk
  cases hlk : lookupHM (buildHM ps) k with
  | none => exact absurd hk2 ((lookupHM_eq_none_iff _ k).mp hlk)
  | some p => exact ⟨p, rfl, (hash_eq_of_lookupHM_buildHM ps k p hlk).1⟩

/-- C4: the deterministic ordering keeps exactly one surviving key per
accumulator value — the hashes it lists are strictly ascending (so
duplicates are impossible), every accumulator value occurring among the
participants is represented, and each survivor is the latest-supplied
participant carrying its accumulator value (collisions overwrite). -/
theorem sort_collisions_overwrite_ascending (ps : List PublicKey) :
    ((sort ps).map PublicKey.Hash).Sorted (fun a b => a < b) ∧
    (∀ h, h ∈ ps.map PublicKey.Hash ↔ h ∈ (sort ps).map PublicKey.Hash) ∧
    (∀ p ∈ sort ps, lastWith ps (PublicKey.Hash p) = some p) := by
  refine ⟨?_, ?_, ?_⟩
  · rw [sort_map_hash]
    have hs : (sortInts ((buildHM ps).map Prod.fst)).Sorted
        (fun a b => a ≤ b) := List.sorted_insertionSort _ _
    have hnd : (sortInts ((buildHM ps).map Prod.fst)).Nodup :=
      ((List.perm_insertionSort (fun a b => a ≤ b)
        ((buildHM ps).map Prod.fst)).nodup_iff).mpr (nodup_keys_buildHM ps)
    exact List.Sorted.lt_of_le hs hnd
  · intro h
    rw [sort_map_hash]
    simp only [sortInts, List.mem_insertionSort]
    constructor
    · intro hmem
      by_contra hk
      have hn := (lookupHM_eq_none_iff (buildHM ps) h).mpr hk
      rw [lookupHM_buildHM] at hn
      exact (lastWith_eq_none_iff ps h).mp hn hmem
    · intro hmem
      by_contra hp
      have hn := (lastWith_eq_none_iff ps h).mpr hp
      rw [← lookupHM_buildHM] at hn
      exact ((lookupHM_eq_none_iff _ h).mp hn) hmem
  · intro p hp
    simp only [sort] at hp
    obtain ⟨k, hk, hlk⟩ := List.mem_filterMap.mp hp
    have hpk := hash_eq_of_lookupHM_buildHM ps k p hlk
    rw [← lookupHM_buildHM, hpk.1]
    exact hlk

/-- C4 witness: on the colliding pair `[1,0]`, `[0,31]` the ordering keeps
only the later key `[0,31]`, which is the last participant carrying the
shared accumulator value 992. -/
theorem sort_collisions_overwrite_ascending_witness :
    (([0, 31] : PublicKey) ∈ sort [[1, 0], [0, 31]]) ∧
    lastWith [[1, 0], [0, 31]] (PublicKey.Hash [0, 31]) = some [0, 31] :=
  ⟨by decide,
   (sort_collisions_overwrite_ascending [[1, 0], [0, 31]]).2.2 [0, 31]
     (by decide)⟩

set_option maxRecDepth 1000000 in
/-- C2 counterexample: the two-byte keys `[1,0]` and `[0,31]` are distinct
but share the accumulator hash 992, so the map overwrite keeps whichever
came later; supplying them in the two orders yields two different root
group ids. -/
theorem findRootPrivacyGroup_perm_counterexample :
    List.Perm [([1, 0] : PublicKey), [0, 31]] [[0, 31], [1, 0]] ∧
    ([1, 0] : PublicKey) ≠ [0, 31] ∧
    PublicKey.Hash [1, 0] = PublicKey.Hash [0, 31] ∧
    FindRootPrivacyGroup [[1, 0], [0, 31]] ≠
      FindRootPrivacyGroup [[0, 31], [1, 0]] := by
  refine ⟨List.Perm.swap [0, 31] [1, 0] [], by decide, by decide, ?_⟩
  intro hcontra
  have hid : (FindRootPrivacyGroup [[1, 0], [0, 31]]).ID =
      (FindRootPrivacyGroup [[0, 31], [1, 0]]).ID := by rw [hcontra]
  rw [show (FindRootPrivacyGroup [[1, 0], [0, 31]]).ID =
      "VsolWWuTR9rIaEdl/05mbSZSAXrpChutBYfWMyaPpds=" from rfl] at hid
  rw [show (FindRootPrivacyGroup [[0, 31], [1, 0]]).ID =
      "XVnx0Sp1zdzQZ62bFCjJ2pVzZZfJXRFYHBF6owRM8r4=" from rfl] at hid
  exact absurd hid (by decide)

/-- C2 amended: the derived root group id is invariant under permutation of
the participant list whenever the folding hash is injective on the
participants (no two distinct participants share an accumulator value); a
hash collision between distinct participants can make different supply
orders produce different ids. -/
theorem findRootPrivacyGroup_perm_invariant (ps qs : List PublicKey)
    (hperm : List.Perm ps qs)
    (hinj : ∀ a ∈ ps, ∀ b ∈ ps,
      PublicKey.Hash a = PublicKey.Hash b → a = b) :
    FindRootPrivacyGroup ps = FindRootPrivacyGroup qs := by
  have hinjq : ∀ a ∈ qs, ∀ b ∈ qs,
      PublicKey.Hash a = PublicKey.Hash b → a = b := by
    intro a ha b hb
    exact hinj a (hperm.mem_iff.mpr ha) b (hperm.mem_iff.mpr hb)
  have hlast : ∀ h, lastWith ps h = lastWith qs h := by
    intro h
    cases hlp : lastWith ps h with
    | some p =>
      obtain ⟨hm, hh⟩ := lastWith_eq_some ps h p hlp
      have hmq : p ∈ qs := hperm.mem_iff.mp hm
      rw [← hh]
      exact (lastWith_mem_inj qs p hmq hinjq).symm
    | none =>
      have hnot := (lastWith_eq_none_iff ps h).mp hlp
      have hnotq : h ∉ qs.map PublicKey.Hash := by
        intro hc
        exact hnot ((hperm.map PublicKey.Hash).mem_iff.mpr hc)
      exact ((lastWith_eq_none_iff qs h).mpr hnotq).symm
  have hlook : ∀ k, lookupHM (buildHM ps) k = lookupHM (buildHM qs) k := by
    intro k
    rw [lookupHM_buildHM, lookupHM_buildHM, hlast k]
  have hkeysmem : ∀ k, k ∈ (buildHM ps).map Prod.fst ↔
      k ∈ (buildHM qs).map Prod.fst := by
    intro k
    have h1 := lookupHM_eq_none_iff (buildHM ps) k
    have h2 := lookupHM_eq_none_iff (buildHM qs) k
    rw [hlook k] at h1
    constructor
    · intro hk
      by_contra hk2
      exact (h1.mp (h2.mpr hk2)) hk
    · intro hk
      by_contra hk2
      exact (h2.mp (h1.mpr hk2)) hk
  have hkeysperm : List.Perm ((buildHM ps).map Prod.fst)
      ((buildHM qs).map Prod.fst) :=
    (List.perm_ext_iff_of_nodup (nodup_keys_buildHM ps)
      (nodup_keys_buildHM qs)).mpr hkeysmem
  have hsorted : sortInts ((buildHM ps).map Prod.fst) =
      sortInts ((buildHM qs).map Prod.fst) := by
    unfold sortInts
    exact @List.eq_of_perm_of_sorted Int (fun a b => a ≤ b) inferInstance _ _
      ((List.perm_insertionSort _ _).trans
        (hkeysperm.trans (List.perm_insertionSort _ _).symm))
      (List.sorted_insertionSort _ _) (List.sorted_insertionSort _ _)
  have hsort : sort ps = sort qs := by
    simp only [sort]
    rw [show sortInts ((buildHM ps).map Prod.fst) =
        sortInts ((buildHM qs).map Prod.fst) from hsorted]
    apply List.filterMap_congr
    intro k _
    exact hlook k
  simp [FindRootPrivacyGroup, hsort]

/-- C2 amended, witness: the collision-free keys `[1]` and `[2]` give the
same root group id in either order. -/
theorem findRootPrivacyGroup_perm_invariant_witness :
    FindRootPrivacyGroup [[1], [2]] = FindRootPrivacyGroup [[2], [1]] :=
  findRootPrivacyGroup_perm_invariant [[1], [2]] [[2], [1]]
    (List.Perm.swap [2] [1] []) (by decide)

end Besu
